import Mathlib

/-!
Verification of the ArtistGrid tracker page core (download manager, resolution
cache, batch resolver, URL resolver, ZIP assembly, share-token codec).

Shallow embedding of the client module that contains `DownloadProvider`,
`getCache`/`setCache`, `preloadAllUrls`, `resolvePlayableUrl`,
`encodeTrackForUrl`/`decodeTrackFromUrl` and `sanitizeFilename`.
JavaScript numbers that stay in integer range are modelled as `Nat`;
`string | null` values as `Option String`; thrown exceptions as `Except`.
-/

namespace ArtistGrid

/-! ### Constants (from the top of the module) -/

def CONCURRENT_DOWNLOADS : Nat := 3

def MAX_ZIP_SIZE : Nat := 500 * 1024 * 1024

def MAX_RETRY_ATTEMPTS : Nat := 2

def CACHE_EXPIRY : Nat := 1000 * 60 * 60 * 24

/-- Source constant `CACHE_KEY_PREFIX = "artistgrid_tracker_"` (renamed here). -/
def CACHE_KEY_HEAD : String := "artistgrid_tracker_"

/-! ### Download item retry state machine (`downloadSingleItem`)

On a failed fetch (`downloadFileAsBlob` returned null, or threw), the updater
runs, per item:
  `if (i.retryCount < MAX_RETRY_ATTEMPTS) { queue.push(item); return {..., retryCount: i.retryCount + 1, status: "pending"} }
   return {..., status: "failed"}`.
-/

inductive ItemStatus where
  | pending
  | downloading
  | completed
  | failed
deriving DecidableEq, Repr

/-- Result of the failure arm of `downloadSingleItem` for one item:
the item's new status, its new retry count, and whether it was pushed back
onto `downloadQueueRef`. -/
structure RetryOutcome where
  status : ItemStatus
  retryCount : Nat
  reenqueued : Bool
deriving DecidableEq, Repr

/-- Failure arm of `downloadSingleItem` (both the `result === null` branch and
the catch branch run identical code). -/
def onDownloadFailure (retryCount : Nat) : RetryOutcome :=
  if retryCount < MAX_RETRY_ATTEMPTS then
    ⟨ItemStatus.pending, retryCount + 1, true⟩
  else
    ⟨ItemStatus.failed, retryCount, false⟩

/-- State of an item after `n` consecutive failed download attempts, starting
from a fresh item (`retryCount: 0`, status pending). Once terminally failed the
item is no longer in the queue, so further failures cannot occur and the state
is absorbing. -/
def afterFailures : Nat → RetryOutcome
  | 0 => ⟨ItemStatus.pending, 0, false⟩
  | n + 1 =>
    let prev := afterFailures n
    if prev.status = ItemStatus.failed then prev else onDownloadFailure prev.retryCount

/-! ### Cache key construction (`getCache` / `setCache`)

Source: `const key = tab ? CACHE_KEY_PREFIX + trackerId + "_" + tab : CACHE_KEY_PREFIX + trackerId;`
`tab` has TypeScript type `string | undefined`; the conditional tests JS
truthiness, so both `undefined` and the empty string select the second arm. -/

def cacheKey (trackerId : String) (tab : Option String) : String :=
  match tab with
  | some t =>
    if t = "" then CACHE_KEY_HEAD ++ trackerId
    else CACHE_KEY_HEAD ++ trackerId ++ "_" ++ t
  | none => CACHE_KEY_HEAD ++ trackerId

/-! ### Resolution cache read path (`getCache`)

The persisted entry (`JSON.parse` of the stored string) carries the tracker
payload, the resolved-URL record and a write timestamp. Storage is modelled as
a partial map from keys to entries; `localStorage.removeItem` as a pointwise
update. The tracker payload type is abstracted as a type parameter. -/

structure CacheRecord (α : Type) where
  data : α
  timestamp : Nat
  resolvedUrls : List (String × Option String)

/-- `getCache(trackerId, tab)`: returns the entry and the storage left behind.
An entry whose age exceeds `CACHE_EXPIRY` is removed and reported as a miss. -/
def getCache {α : Type} (store : String → Option (CacheRecord α)) (now : Nat)
    (trackerId : String) (tab : Option String) :
    Option (CacheRecord α) × (String → Option (CacheRecord α)) :=
  let key := cacheKey trackerId tab
  match store key with
  | none => (none, store)
  | some entry =>
    if now - entry.timestamp > CACHE_EXPIRY then
      (none, fun k => if k = key then none else store k)
    else
      (some entry, store)

/-! ### `sanitizeFilename`

Source: `name.replace(/[<>:"/\\|?*]/g, "_").replace(/\s+/g, " ").trim() || "unknown"`. -/

/-- Characters forbidden in filenames, the class `[<>:"/\\|?*]`. -/
def isForbiddenFileChar (c : Char) : Bool :=
  c = '<' || c = '>' || c = ':' || c = '"' || c = '/' || c = '\\' || c = '|' || c = '?' || c = '*'

/-- JavaScript regex `\s` character class (the whitespace characters relevant
to this code path). -/
def isJsSpace (c : Char) : Bool :=
  c = ' ' || c = '\t' || c = '\n' || c = '\r' || c = '\x0b' || c = '\x0c'

/-- The global replace `\s+` → `" "`: every maximal whitespace run collapses to
a single space. `seenSpace` records whether the previous character belonged to
a run already emitted. -/
def collapseSpaces : Bool → List Char → List Char
  | _, [] => []
  | seenSpace, c :: rest =>
    if isJsSpace c then
      if seenSpace then collapseSpaces true rest
      else ' ' :: collapseSpaces true rest
    else c :: collapseSpaces false rest

/-- `String.prototype.trim`: strip whitespace from both ends. -/
def trimEnds (l : List Char) : List Char :=
  ((l.dropWhile isJsSpace).reverse.dropWhile isJsSpace).reverse

def sanitizeFilename (name : String) : String :=
  let replaced := name.data.map (fun c => if isForbiddenFileChar c then '_' else c)
  let collapsed := collapseSpaces false replaced
  let trimmed := String.mk (trimEnds collapsed)
  if trimmed = "" then "unknown" else trimmed

/-- ZIP entry path built in `checkAndCreateZips`:
`` `${sanitizeFilename(item.eraName)}/${sanitizeFilename(item.trackName)}.${fileData.ext}` ``. -/
def zipEntryPath (eraName trackName ext : String) : String :=
  sanitizeFilename eraName ++ "/" ++ sanitizeFilename trackName ++ "." ++ ext

/-! ### Download manager shared concurrency state (`processQueue` / `downloadSingleItem`)

Shared mutable state of `DownloadProvider`: `activeDownloadsRef` (the global
in-flight counter), `downloadQueueRef` (the FIFO of queued items), and — for
the pairing invariant — the multiset of items currently inside a running
`downloadSingleItem` call, modelled as the `inflight` list.

Events, each an atomic step of the single-threaded event loop:
  * `enqueue`: `startDownload` pushes a job's items onto the queue;
  * `dispatch`: one iteration of the `processQueue` loop — guard
    `activeDownloadsRef.current < CONCURRENT_DOWNLOADS && queue.length > 0`,
    then `shift()` and `activeDownloadsRef.current++`;
  * `finishTerminal`: a `downloadSingleItem` call ends with the item completed
    or terminally failed — `activeDownloadsRef.current--`;
  * `finishRetry`: a `downloadSingleItem` call ends after re-enqueueing the
    item (`downloadQueueRef.current.push(item)`), then decrements the counter.
-/

structure DMState (α : Type) where
  active : Nat
  queue : List α
  inflight : List α

inductive DMStep {α : Type} [DecidableEq α] : DMState α → DMState α → Prop where
  | enqueue (s : DMState α) (items : List α) :
      DMStep s ⟨s.active, s.queue ++ items, s.inflight⟩
  | dispatch (s : DMState α) (it : α) (q' : List α) :
      s.active < CONCURRENT_DOWNLOADS → s.queue = it :: q' →
      DMStep s ⟨s.active + 1, q', it :: s.inflight⟩
  | finishTerminal (s : DMState α) (it : α) :
      it ∈ s.inflight → DMStep s ⟨s.active - 1, s.queue, s.inflight.erase it⟩
  | finishRetry (s : DMState α) (it : α) :
      it ∈ s.inflight → DMStep s ⟨s.active - 1, s.queue ++ [it], s.inflight.erase it⟩

/-- The download-manager invariant: the shared counter equals the number of
in-flight `downloadSingleItem` calls (increment/decrement pairing) and never
exceeds the concurrency cap. -/
def DMInv {α : Type} (s : DMState α) : Prop :=
  s.active = s.inflight.length ∧ s.active ≤ CONCURRENT_DOWNLOADS

/-! ### Batch resolver (`preloadAllUrls`)

`preloadAllUrls` collects one raw URL per track (via `getTrackUrl`) without
deduplication, then loops `for (let i = 0; i < urls.length; i += batchSize)`
with `batchSize = 10`; each wave runs
`Promise.all(batch.map(async url => ({url, playable: await resolvePlayableUrl(url)})))`
and then writes `resolved[url] = playable` for each result.

`resolvePlayableUrl` is abstracted here as a function `r : String → Option String`
(its own definition appears further below); the first component of
`preloadResolve` is the exact sequence of URLs passed to it during the pass. -/

/-- Global replace of `pillowcase.su` by `pillows.su` on a character list
(`url.replace(/pillowcase\.su/g, "pillows.su")`), leftmost-first,
non-overlapping; the 13-character literal is matched positionally. -/
def replacePillowcase : List Char → List Char
  | 'p' :: 'i' :: 'l' :: 'l' :: 'o' :: 'w' :: 'c' :: 'a' :: 's' :: 'e' :: '.' :: 's' :: 'u' :: rest =>
    "pillows.su".data ++ replacePillowcase rest
  | c :: rest => c :: replacePillowcase rest
  | [] => []

def normalizePillowsUrl (url : String) : String :=
  String.mk (replacePillowcase url.data)

/-- `isUrl(str)`: non-null string starting with an http scheme
(`str.startsWith("http://") || str.startsWith("https://")`). -/
def isUrlStr (s : Option String) : Bool :=
  match s with
  | some str =>
    "http://".data.isPrefixOf str.data || "https://".data.isPrefixOf str.data
  | none => false

/-- One tracker row (`TALeak`), restricted to the fields `getTrackUrl` reads. -/
structure TALeak where
  url : Option String
  quality : Option String
  available_length : Option String
deriving DecidableEq

/-- `getTrackUrl(track)`: first http-looking field among `url`, `quality`,
`available_length`, normalized; null otherwise. -/
def getTrackUrl (t : TALeak) : Option String :=
  if isUrlStr t.url then t.url.map normalizePillowsUrl
  else if isUrlStr t.quality then t.quality.map normalizePillowsUrl
  else if isUrlStr t.available_length then t.available_length.map normalizePillowsUrl
  else none

/-- One era as traversed by `preloadAllUrls`: `era.data` is a record mapping
category names to track arrays (absent on some eras). -/
structure EraData where
  data : Option (List (String × List TALeak))

/-- The URL-collection loop of `preloadAllUrls`: every track contributes its
`getTrackUrl` when non-null; nothing is deduplicated. -/
def collectUrls (eras : List EraData) : List String :=
  (eras.map (fun era =>
    match era.data with
    | none => []
    | some cats => (cats.map (fun cat => cat.2.filterMap getTrackUrl)).flatten)).flatten

/-- Split a list into consecutive batches of 10 (`urls.slice(i, i + 10)` for
`i = 0, 10, 20, ...`; a final short slice keeps the remainder). -/
def toBatches {α : Type} : List α → List (List α)
  | [] => []
  | a0 :: a1 :: a2 :: a3 :: a4 :: a5 :: a6 :: a7 :: a8 :: a9 :: rest =>
    [a0, a1, a2, a3, a4, a5, a6, a7, a8, a9] :: toBatches rest
  | l => [l]

/-- `resolved[url] = playable` on a JS record: overwrite in place when the key
exists, append otherwise. -/
def insertResolved (m : List (String × Option String)) (u : String) (v : Option String) :
    List (String × Option String) :=
  if m.any (fun p => p.1 = u) then m.map (fun p => if p.1 = u then (u, v) else p)
  else m ++ [(u, v)]

def insertPair (m : List (String × Option String)) (p : String × Option String) :
    List (String × Option String) :=
  insertResolved m p.1 p.2

/-- The wave loop of `preloadAllUrls`: one batch is resolved concurrently and
written through before the next wave starts. Returns the sequence of
`resolvePlayableUrl` invocations and the final `resolved` record. -/
def runWaves (r : String → Option String) :
    List (List String) → List (String × Option String) →
    List String × List (String × Option String)
  | [], m => ([], m)
  | batch :: rest, m =>
    let results := batch.map (fun u => (u, r u))
    let m' := results.foldl insertPair m
    let out := runWaves r rest m'
    (batch ++ out.1, out.2)

/-- Whole resolution pass of `preloadAllUrls` over a url list, relative to a
resolver `r`. -/
def preloadResolve (r : String → Option String) (urls : List String) :
    List String × List (String × Option String) :=
  runWaves r (toBatches urls) []

/-! ### ZIP assembly (`checkAndCreateZips`)

When every item of an active job is terminal, the manager sums the blob sizes
of the completed items while adding them to the archive and throws —
caught, marking the job `failed` — as soon as `totalSize > MAX_ZIP_SIZE`.
`zip.generateAsync` itself may also fail; that outcome is the `genOk` flag.
The `for (const job of jobs)` loop updates, per iteration, only the list entry
whose id matches the iterated snapshot. -/

inductive JobStatus where
  | active
  | completed
  | failed
deriving DecidableEq, Repr

/-- One download item as seen by `checkAndCreateZips`: its status and the size
of the blob held for it in `zipDataRef` (present exactly when the item's
download stored one). -/
structure ZEntry where
  status : ItemStatus
  blob : Option Nat
deriving DecidableEq, Repr

structure Job where
  id : String
  status : JobStatus
  items : List ZEntry
deriving DecidableEq, Repr

/-- `job.items.every(i => i.status === "completed" || i.status === "failed")`. -/
def allTerminal (items : List ZEntry) : Bool :=
  items.all (fun it => it.status = ItemStatus.completed || it.status = ItemStatus.failed)

/-- `jobData && jobData.size > 0`: the job's `zipDataRef` map is non-empty. -/
def hasZipData (items : List ZEntry) : Bool :=
  items.any (fun it => it.blob.isSome)

/-- The archive-filling loop: for each completed item with stored data,
`totalSize += fileData.blob.size; if (totalSize > MAX_ZIP_SIZE) throw`. -/
def addZipEntries : List ZEntry → Nat → Except Unit Nat
  | [], total => Except.ok total
  | it :: rest, total =>
    if it.status = ItemStatus.completed then
      match it.blob with
      | some sz =>
        if total + sz > MAX_ZIP_SIZE then Except.error ()
        else addZipEntries rest (total + sz)
      | none => addZipEntries rest total
    else addZipEntries rest total

/-- Size contributed by one item to the archive total. -/
def entrySize (it : ZEntry) : Nat :=
  match it.status, it.blob with
  | ItemStatus.completed, some sz => sz
  | _, _ => 0

/-- Total uncompressed size of the completed items' stored blobs. -/
def completedBlobSize (items : List ZEntry) : Nat :=
  (items.map entrySize).sum

/-- The per-job body of `checkAndCreateZips`, evaluated on a job snapshot:
no change unless the job is active with every item terminal; `failed` when no
item stored data, when the size cap trips (the thrown error is caught and the
job marked failed), or when ZIP generation fails; `completed` otherwise. -/
def checkJobZip (genOk : Bool) (status : JobStatus) (items : List ZEntry) : JobStatus :=
  if status = JobStatus.active ∧ allTerminal items = true then
    if hasZipData items = true then
      match addZipEntries items 0 with
      | Except.error _ => JobStatus.failed
      | Except.ok _ => if genOk then JobStatus.completed else JobStatus.failed
    else JobStatus.failed
  else status

/-- `setJobs(prev => prev.map(j => j.id === job.id ? {...j, status} : j))`:
the functional update one loop iteration applies for the snapshot `target`. -/
def updById (genOk : Bool) (target j : Job) : Job :=
  if j.id = target.id then
    { j with status := checkJobZip genOk target.status target.items }
  else j

def applyZipCheck (genOk : Bool) (st : List Job) (target : Job) : List Job :=
  st.map (updById genOk target)

/-- The whole `for (const job of jobs)` loop of `checkAndCreateZips`:
iterate over the snapshot list, threading the updated jobs state. -/
def zipPass (genOk : Bool) (jobs : List Job) : List Job :=
  jobs.foldl (applyZipCheck genOk) jobs

/-- Concrete jobs used to witness the size cap: job `A`'s two completed items
total 600MB of blobs, job `B` is a small sibling job. -/
def sampleJobs : List Job :=
  [⟨"A", JobStatus.active,
     [⟨ItemStatus.completed, some (300 * 1024 * 1024)⟩,
      ⟨ItemStatus.completed, some (300 * 1024 * 1024)⟩]⟩,
   ⟨"B", JobStatus.active, [⟨ItemStatus.completed, some 5⟩]⟩]

/-! ### Source classification (`getTrackSource`) and resolution (`resolvePlayableUrl`)

The source classifies with an ordered chain of unanchored regex tests and the
resolver extracts ids with capture groups. Regexes here are literal patterns
followed by nonempty character-class runs; they are modelled by a
position-by-position scan (`String.prototype.match` returns the leftmost
match), with one predicate token per pattern character so that the one
unescaped dot (`/https?:\/\/pixeldrain.com\/d\//`) matches any character.
URLs contain no newline, so `.*` is modelled as an unconstrained gap. -/

/-- Scan match positions left to right; the first position where the whole
pattern matches wins. -/
def scanPos {α : Type} (att : List Char → Option α) : List Char → Option α
  | [] => att []
  | s@(_ :: rest) =>
    match att s with
    | some v => some v
    | none => scanPos att rest

/-- Greedy nonempty character-class run, `([c]+)` ending a pattern. -/
def classRun (cls : Char → Bool) (s : List Char) : Option (List Char) :=
  let run := s.takeWhile cls
  if run.isEmpty then none else some run

/-- Match a literal, then hand the remainder to the rest of the pattern. -/
def litThen {α : Type} (lit : List Char) (after : List Char → Option α)
    (s : List Char) : Option α :=
  if lit.isPrefixOf s then after (s.drop lit.length) else none

/-- One predicate per pattern position (escaped characters are exact,
an unescaped `.` accepts anything). -/
def matchToks : List (Char → Bool) → List Char → Option (List Char)
  | [], s => some s
  | _ :: _, [] => none
  | t :: ts, c :: cs => if t c then matchToks ts cs else none

def litToks (s : String) : List (Char → Bool) :=
  s.data.map (fun c => (· = c))

def anyTok : Char → Bool := fun _ => true

def isDigitC (c : Char) : Bool := '0' ≤ c && c ≤ '9'

def isHexLower (c : Char) : Bool := isDigitC c || ('a' ≤ c && c ≤ 'f')

def isAlnumC (c : Char) : Bool :=
  isDigitC c || ('a' ≤ c && c ≤ 'z') || ('A' ≤ c && c ≤ 'Z')

/-- Is `pat` a contiguous subsequence of `l`? -/
def hasInfixSeq (pat : List Char) : List Char → Bool
  | [] => pat.isEmpty
  | s@(_ :: rest) => pat.isPrefixOf s || hasInfixSeq pat rest

/-- Does `s` contain `pat` as a substring? -/
def hasSub (s pat : String) : Bool := hasInfixSeq pat.data s.data

/-- Unanchored test `/https?:\/\/<hostPath>/` with every character escaped. -/
def testHttp (s : String) (hostPath : String) : Bool :=
  hasSub s ("http://" ++ hostPath) || hasSub s ("https://" ++ hostPath)

/-- `/https?:\/\/pixeldrain.com\/d\//` — note the unescaped dot. -/
def testPixeldrain (s : String) : Bool :=
  (scanPos (matchToks
    (litToks "http://pixeldrain" ++ [anyTok] ++ litToks "com/d/")) s.data).isSome
  || (scanPos (matchToks
    (litToks "https://pixeldrain" ++ [anyTok] ++ litToks "com/d/")) s.data).isSome

/-- `/https?:\/\/.*imgur\.gg/`. -/
def testImgur (s : String) : Bool :=
  (scanPos (fun t =>
    match matchToks (litToks "https://") t with
    | some rest => if hasInfixSeq "imgur.gg".data rest then some () else none
    | none =>
      match matchToks (litToks "http://") t with
      | some rest => if hasInfixSeq "imgur.gg".data rest then some () else none
      | none => none) s.data).isSome

inductive SourceTag where
  | pillows
  | froste
  | krakenfiles
  | pixeldrain
  | juicewrldapi
  | imgur
  | yetracker
  | soundcloud
  | tidal
  | qobuz
  | unknown
deriving DecidableEq, Repr

/-- `getTrackSource(url)`: normalize, then the ordered chain of regex tests. -/
def getTrackSource (url : String) : SourceTag :=
  let normalized := normalizePillowsUrl url
  if testHttp normalized "pillows.su/f/" then SourceTag.pillows
  else if testHttp normalized "music.froste.lol/song/" then SourceTag.froste
  else if testHttp normalized "krakenfiles.com/view/" then SourceTag.krakenfiles
  else if testPixeldrain normalized then SourceTag.pixeldrain
  else if testHttp normalized "juicewrldapi.com/juicewrld" then SourceTag.juicewrldapi
  else if testImgur normalized then SourceTag.imgur
  else if testHttp normalized "files.yetracker.org/f/" then SourceTag.yetracker
  else if testHttp normalized "soundcloud.com/" || testHttp normalized "www.soundcloud.com/" then
    SourceTag.soundcloud
  else if testHttp normalized "tidal.com/" then SourceTag.tidal
  else if testHttp normalized "qobuz.com/track/" || testHttp normalized "open.qobuz.com/track/" then
    SourceTag.qobuz
  else SourceTag.unknown

/-- `/pillows\.su\/f\/([a-f0-9]+)/`. -/
def matchPillowsId (url : String) : Option String :=
  (scanPos (litThen "pillows.su/f/".data (classRun isHexLower)) url.data).map String.mk

/-- `/pixeldrain\.com\/d\/([a-zA-Z0-9]+)/` (escaped dot in this one). -/
def matchPixeldrainId (url : String) : Option String :=
  (scanPos (litThen "pixeldrain.com/d/".data (classRun isAlnumC)) url.data).map String.mk

/-- `/music\.froste\.lol\/song\/([a-f0-9]+)/`. -/
def matchFrosteId (url : String) : Option String :=
  (scanPos (litThen "music.froste.lol/song/".data (classRun isHexLower)) url.data).map String.mk

/-- `/files\.yetracker\.org\/f\/([a-zA-Z0-9]+)/`. -/
def matchYetrackerId (url : String) : Option String :=
  (scanPos (litThen "files.yetracker.org/f/".data (classRun isAlnumC)) url.data).map String.mk

/-- `extractKrakenId`: `/krakenfiles\.com\/view\/([a-zA-Z0-9]+)/`. -/
def extractKrakenId (url : String) : Option String :=
  (scanPos (litThen "krakenfiles.com/view/".data (classRun isAlnumC)) url.data).map String.mk

/-- `extractImgurId`: first `/\/f\/([a-zA-Z0-9]+)/`, then the fallback
`/\/([a-zA-Z0-9]+)(?:\?|$)/`. -/
def extractImgurId (url : String) : Option String :=
  match scanPos (litThen "/f/".data (classRun isAlnumC)) url.data with
  | some r => some (String.mk r)
  | none =>
    (scanPos (fun s =>
      match s with
      | '/' :: rest =>
        match classRun isAlnumC rest with
        | some run =>
          match rest.drop run.length with
          | [] => some run
          | '?' :: _ => some run
          | _ => none
        | none => none
      | _ => none) url.data).map String.mk

/-- `extractSoundcloudPath`: `/soundcloud\.com\/([^/]+\/[^/?#]+)/`. -/
def extractSoundcloudPath (url : String) : Option String :=
  (scanPos (litThen "soundcloud.com/".data (fun rest =>
    match classRun (fun c => c != '/') rest with
    | some seg1 =>
      match rest.drop seg1.length with
      | '/' :: rest2 =>
        match classRun (fun c => c != '/' && c != '?' && c != '#') rest2 with
        | some seg2 => some (seg1 ++ '/' :: seg2)
        | none => none
      | _ => none
    | none => none)) url.data).map String.mk

/-- `extractTidalId`: `/tidal\.com\/(?:browse\/)?track\/(\d+)/`. -/
def extractTidalId (url : String) : Option String :=
  (scanPos (litThen "tidal.com/".data (fun rest =>
    match litThen "browse/track/".data (classRun isDigitC) rest with
    | some r => some r
    | none => litThen "track/".data (classRun isDigitC) rest)) url.data).map String.mk

/-- `extractQobuzId`: `/(?:open\.)?qobuz\.com\/track\/(\d+)/`. -/
def extractQobuzId (url : String) : Option String :=
  (scanPos (fun s =>
    match litThen "open.qobuz.com/track/".data (classRun isDigitC) s with
    | some r => some r
    | none => litThen "qobuz.com/track/".data (classRun isDigitC) s) url.data).map String.mk

/-- Mirror pool for the Tidal resolver, base URLs only. -/
def TIDAL_APIS : List String :=
  ["https://triton.squid.wtf", "https://tidal.kinoplus.online", "https://hund.qqdl.site",
   "https://katze.qqdl.site", "https://maus.qqdl.site", "https://vogel.qqdl.site",
   "https://wolf.qqdl.site"]

/-- `selectTidalApi()`: read the round-robin index, advance it modulo the pool
size; returns the chosen base URL and the new index. -/
def selectTidalApi (tidalApiIndex : Nat) : String × Nat :=
  (TIDAL_APIS.getD (tidalApiIndex % TIDAL_APIS.length) "",
   (tidalApiIndex + 1) % TIDAL_APIS.length)

/-- An exception thrown by a transport call, a JSON parse, `atob`, or the
10s timeout signal of the Tidal fetch. -/
inductive NetErr where
  | err
deriving DecidableEq, Repr

/-- A fetched response: the `res.ok` flag, and `res.json()` which may throw. -/
structure NetResp (α : Type) where
  ok : Bool
  json : Except NetErr α

structure KrakenData where
  success : Bool
  m4a : Option String

structure ImgurData where
  cdnUrl : Option String

/-- `data?.data?.manifest` of the Tidal response. -/
structure TidalData where
  manifest : Option String

/-- `JSON.parse(atob(manifest))`, fields used: `urls`. -/
structure TidalManifest where
  urls : Option (List String)

/-- `data?.data?.url` of the Qobuz response. -/
structure QobuzData where
  url : Option String

/-- The external collaborators `resolvePlayableUrl` awaits; every call can
throw. The krakenfiles branch never checks `res.ok`, so its fetch and
`res.json()` are one combined effect. -/
structure NetEnv where
  krakenGet : String → Except NetErr KrakenData
  imgurGet : String → Except NetErr (NetResp ImgurData)
  tidalGet : String → String → Except NetErr (NetResp TidalData)
  qobuzGet : String → Except NetErr (NetResp QobuzData)
  decodeManifest : String → Except NetErr TidalManifest

/-- JS `x || null` on a nullable string: empty string collapses to null. -/
def orNull (s : Option String) : Option String :=
  match s with
  | some str => if str = "" then none else some str
  | none => none

/-- Body of `resolvePlayableUrl`, without its enclosing try/catch: a thrown
error propagates as `Except.error`. -/
def resolveBody (env : NetEnv) (tidalApiIndex : Nat) (url : String) :
    Except NetErr (Option String) :=
  let normalized := normalizePillowsUrl url
  match getTrackSource normalized with
  | SourceTag.pillows =>
    Except.ok ((matchPillowsId normalized).map
      (fun id => "https://api.pillows.su/api/download/" ++ id))
  | SourceTag.pixeldrain =>
    Except.ok ((matchPixeldrainId normalized).map
      (fun id => "https://tracker.thug.surf/goy/dl/" ++ id))
  | SourceTag.froste =>
    Except.ok ((matchFrosteId normalized).map
      (fun id => "https://music.froste.lol/song/" ++ id ++ "/download"))
  | SourceTag.krakenfiles =>
    match extractKrakenId normalized with
    | none => Except.ok none
    | some id =>
      match env.krakenGet id with
      | Except.error e => Except.error e
      | Except.ok data => Except.ok (if data.success then data.m4a else none)
  | SourceTag.imgur =>
    match extractImgurId normalized with
    | none => Except.ok none
    | some id =>
      match env.imgurGet id with
      | Except.error e => Except.error e
      | Except.ok res =>
        if res.ok then
          match res.json with
          | Except.error e => Except.error e
          | Except.ok data => Except.ok (orNull data.cdnUrl)
        else Except.ok none
  | SourceTag.yetracker =>
    Except.ok ((matchYetrackerId normalized).map
      (fun id => "https://files.yetracker.org/raw/" ++ id))
  | SourceTag.soundcloud =>
    Except.ok ((extractSoundcloudPath normalized).map
      (fun p => "https://sc.maid.zone/_/restream/" ++ p))
  | SourceTag.tidal =>
    match extractTidalId normalized with
    | none => Except.ok none
    | some id =>
      match env.tidalGet (selectTidalApi tidalApiIndex).1 id with
      | Except.error e => Except.error e
      | Except.ok res =>
        if res.ok then
          match res.json with
          | Except.error e => Except.error e
          | Except.ok data =>
            match data.manifest with
            | some m =>
              if m = "" then Except.ok none
              else
                match env.decodeManifest m with
                | Except.error e => Except.error e
                | Except.ok mj =>
                  Except.ok (match mj.urls with
                    | some (u :: _) => if u = "" then none else some u
                    | _ => none)
            | none => Except.ok none
        else Except.ok none
  | SourceTag.qobuz =>
    match extractQobuzId normalized with
    | none => Except.ok none
    | some id =>
      match env.qobuzGet id with
      | Except.error e => Except.error e
      | Except.ok res =>
        if res.ok then
          match res.json with
          | Except.error e => Except.error e
          | Except.ok data => Except.ok (orNull data.url)
        else Except.ok none
  | SourceTag.juicewrldapi => Except.ok (some url)
  | SourceTag.unknown => Except.ok none

/-- `resolvePlayableUrl` as callers see it, enclosing try/catch included:
a thrown error is caught, logged, and converted to the value null. -/
def resolvePlayableUrl (env : NetEnv) (tidalApiIndex : Nat) (url : String) :
    Except NetErr (Option String) :=
  match resolveBody env tidalApiIndex url with
  | Except.ok v => Except.ok v
  | Except.error _ => Except.ok none

/-- An environment whose every collaborator throws (network down). -/
def throwingEnv : NetEnv :=
  ⟨fun _ => Except.error NetErr.err,
   fun _ => Except.error NetErr.err,
   fun _ _ => Except.error NetErr.err,
   fun _ => Except.error NetErr.err,
   fun _ => Except.error NetErr.err⟩

/-! ### Share-token codec (`encodeTrackForUrl` / `decodeTrackFromUrl`)

`encodeTrackForUrl`: `btoa(url).replace(/\+/g, "-").replace(/\//g, "_").replace(/=+$/, "")`.
`decodeTrackFromUrl`: restore `+` and `/`, re-append `(4 - len % 4) % 4`
padding characters, `atob`, null on a thrown decode error.
`btoa` reads one byte per character (it throws above code point 255, which
cannot happen for the ASCII inputs considered here); `atob` yields one
character per decoded byte. -/

def B64_CHARS : List Char :=
  "ABCDEFGHIJKLMNOPQRSTUVWXYZabcdefghijklmnopqrstuvwxyz0123456789+/".data

def b64Char (i : Nat) : Char := B64_CHARS.getD i 'A'

def b64Index (c : Char) : Option Nat := B64_CHARS.findIdx? (fun d => d = c)

/-- `btoa` on a byte list: three bytes per four characters, `=`-padded. -/
def encodeBytes : List Nat → List Char
  | [] => []
  | [a] => [b64Char (a / 4), b64Char (a % 4 * 16), '=', '=']
  | [a, b] => [b64Char (a / 4), b64Char (a % 4 * 16 + b / 16), b64Char (b % 16 * 4), '=']
  | a :: b :: c :: rest =>
    b64Char (a / 4) :: b64Char (a % 4 * 16 + b / 16) :: b64Char (b % 16 * 4 + c / 64)
      :: b64Char (c % 64) :: encodeBytes rest

/-- `atob` on the character list: groups of four, `=` only as final padding;
`none` models the thrown `InvalidCharacterError`. -/
def decodeB64 : List Char → Option (List Nat)
  | [] => some []
  | c1 :: c2 :: c3 :: c4 :: rest =>
    if c3 = '=' then
      if c4 = '=' ∧ rest = [] then
        match b64Index c1, b64Index c2 with
        | some i1, some i2 => some [i1 * 4 + i2 / 16]
        | _, _ => none
      else none
    else if c4 = '=' then
      if rest = [] then
        match b64Index c1, b64Index c2, b64Index c3 with
        | some i1, some i2, some i3 => some [i1 * 4 + i2 / 16, i2 % 16 * 16 + i3 / 4]
        | _, _, _ => none
      else none
    else
      match b64Index c1, b64Index c2, b64Index c3, b64Index c4 with
      | some i1, some i2, some i3, some i4 =>
        (decodeB64 rest).map (fun bs =>
          (i1 * 4 + i2 / 16) :: (i2 % 16 * 16 + i3 / 4) :: (i3 % 4 * 64 + i4) :: bs)
      | _, _, _, _ => none
  | _ => none

/-- `.replace(/\+/g, "-")`. -/
def plusToDash (c : Char) : Char := if c = '+' then '-' else c

/-- `.replace(/\//g, "_")`. -/
def slashToUnder (c : Char) : Char := if c = '/' then '_' else c

/-- Global replace of the dash by `+` (regex `\x2d` globally). -/
def dashToPlus (c : Char) : Char := if c = '-' then '+' else c

/-- `.replace(/_/g, "\x2f")`. -/
def underToSlash (c : Char) : Char := if c = '_' then '/' else c

/-- `.replace(/=+$/, "")`. -/
def stripTrailingEq (l : List Char) : List Char :=
  (l.reverse.dropWhile (fun c => c = '=')).reverse

def encodeTrackForUrl (url : String) : String :=
  String.mk (stripTrailingEq
    (((encodeBytes (url.data.map Char.toNat)).map plusToDash).map slashToUnder))

def decodeTrackFromUrl (encoded : String) : Option String :=
  let base64 := (encoded.data.map dashToPlus).map underToSlash
  let padding := (4 - base64.length % 4) % 4
  match decodeB64 (base64 ++ List.replicate padding '=') with
  | some bytes => some (String.mk (bytes.map Char.ofNat))
  | none => none

/-- The two encode-side character replacements composed. -/
def fwdSafe (c : Char) : Char := slashToUnder (plusToDash c)

/-- The two decode-side character replacements composed. -/
def bwdSafe (c : Char) : Char := underToSlash (dashToPlus c)

end ArtistGrid

namespace ArtistGrid

/-! ## Theorems -/

/-- C1, counterexample: a fresh item that fails exactly twice is re-enqueued
(for a third attempt) with `retryCount = 2` and status `pending`, not `failed`. -/
theorem c1_two_failures_not_terminal :
    afterFailures 2 = ⟨ItemStatus.pending, 2, true⟩ ∧
    (afterFailures 2).status ≠ ItemStatus.failed ∧ (afterFailures 2).reenqueued = true := by
  decide

/-- C1 (amended): a failed attempt re-enqueues the item with `retryCount + 1`
while `retryCount < MAX_RETRY_ATTEMPTS` (2) and otherwise marks it terminally
failed; consequently a fresh item fails exactly 3 times (the initial attempt
plus 2 retries) before transitioning to `failed`, and from then on it is never
re-enqueued again. -/
theorem c1_retry_policy :
    (∀ rc, rc < MAX_RETRY_ATTEMPTS →
      onDownloadFailure rc = ⟨ItemStatus.pending, rc + 1, true⟩) ∧
    (∀ rc, ¬ rc < MAX_RETRY_ATTEMPTS →
      onDownloadFailure rc = ⟨ItemStatus.failed, rc, false⟩) ∧
    afterFailures 3 = ⟨ItemStatus.failed, 2, false⟩ ∧
    (∀ n, 3 ≤ n → afterFailures n = ⟨ItemStatus.failed, 2, false⟩) := by
  refine ⟨?_, ?_, by decide, ?_⟩
  · intro rc h
    simp [onDownloadFailure, h]
  · intro rc h
    simp [onDownloadFailure, h]
  · intro n hn
    induction n with
    | zero => omega
    | succ m ih =>
      rcases Nat.lt_or_ge m 3 with hm | hm
      · interval_cases m
        · omega
        · omega
        · decide
      · have := ih (by omega)
        simp [afterFailures, this]

/-- C1 witness: instantiating the amended retry policy at concrete inputs. -/
theorem c1_retry_policy_witness :
    onDownloadFailure 1 = ⟨ItemStatus.pending, 2, true⟩ ∧
    onDownloadFailure 5 = ⟨ItemStatus.failed, 5, false⟩ ∧
    afterFailures 4 = ⟨ItemStatus.failed, 2, false⟩ :=
  ⟨(c1_retry_policy.1 1 (by decide)),
   (c1_retry_policy.2.1 5 (by decide)),
   (c1_retry_policy.2.2.2 4 (by decide))⟩

/-- C4, counterexample: the key for the empty-string tab coincides with the
key for "no tab" — `tab ? ... : ...` tests JS truthiness and `""` is falsy —
so `getCache(id, undefined)` and `getCache(id, "")` address the same storage
key, contrary to the claim. -/
theorem c4_empty_tab_collides :
    cacheKey "X" (some "") = cacheKey "X" none := by
  rfl

/-- C4 (amended): for every trackerId, the cache key distinguishes "no tab"
from every non-empty tab, and distinct non-empty tabs of the same tracker get
distinct keys; the empty-string tab, however, collides with the no-tab key. -/
theorem c4_cache_key_separation (trackerId t t1 t2 : String)
    (ht : t ≠ "") (h1 : t1 ≠ "") (h2 : t2 ≠ "") (hne : t1 ≠ t2) :
    cacheKey trackerId (some t) ≠ cacheKey trackerId none ∧
    cacheKey trackerId (some t1) ≠ cacheKey trackerId (some t2) ∧
    cacheKey trackerId (some "") = cacheKey trackerId none := by
  refine ⟨?_, ?_, by simp [cacheKey]⟩
  · simp only [cacheKey, ht, if_neg ht]
    intro h
    have hlen := congrArg String.length h
    simp [String.length_append] at hlen
    have : t.length ≠ 0 := fun h0 => ht (String.ext (List.length_eq_zero.mp h0))
    omega
  · simp only [cacheKey, if_neg h1, if_neg h2]
    intro h
    have hdata := congrArg String.data h
    simp only [String.data_append] at hdata
    have := List.append_cancel_left hdata
    exact hne (String.ext this)

/-- C4 witness: concrete tabs. -/
theorem c4_cache_key_separation_witness :
    cacheKey "trk" (some "Art") ≠ cacheKey "trk" none ∧
    cacheKey "trk" (some "Art") ≠ cacheKey "trk" (some "Misc") ∧
    cacheKey "trk" (some "") = cacheKey "trk" none :=
  c4_cache_key_separation "trk" "Art" "Art" "Misc"
    (by decide) (by decide) (by decide) (by decide)

/-- C8: a cache entry written at time `T` and read at `T + d` with `d`
beyond the 24h expiry (for example 25 hours later) is reported as a miss and
its key is removed from persistent storage. -/
theorem c8_expired_entry_evicted {α : Type}
    (store : String → Option (CacheRecord α)) (trackerId : String)
    (tab : Option String) (entry : CacheRecord α) (d : Nat)
    (hstore : store (cacheKey trackerId tab) = some entry)
    (hd : d > CACHE_EXPIRY) :
    (getCache store (entry.timestamp + d) trackerId tab).1 = none ∧
    (getCache store (entry.timestamp + d) trackerId tab).2 (cacheKey trackerId tab) = none := by
  have hage : entry.timestamp + d - entry.timestamp > CACHE_EXPIRY := by omega
  constructor
  · simp [getCache, hstore, hage, hd]
  · simp [getCache, hstore, hage, hd]

/-- C8 witness: a concrete store with one entry written at `T = 1000`, read
25 hours (90000000 ms) later. -/
theorem c8_expired_entry_evicted_witness :
    ((getCache (fun k => if k = cacheKey "trk" none then
        some (⟨(), 1000, []⟩ : CacheRecord Unit) else none)
      (1000 + 90000000) "trk" none).1 = none ∧
     (getCache (fun k => if k = cacheKey "trk" none then
        some (⟨(), 1000, []⟩ : CacheRecord Unit) else none)
      (1000 + 90000000) "trk" none).2 (cacheKey "trk" none) = none) :=
  c8_expired_entry_evicted
    (fun k => if k = cacheKey "trk" none then some ⟨(), 1000, []⟩ else none)
    "trk" none ⟨(), 1000, []⟩ 90000000 (by simp) (by decide)

/-- C10: `sanitizeFilename` always returns a non-empty string — forbidden
characters become `_`, whitespace runs collapse, and an all-whitespace or
empty result falls back to the literal `"unknown"`; hence both components of
every ZIP entry path are non-empty. -/
theorem c10_sanitize_nonempty (name eraName trackName : String) :
    sanitizeFilename name ≠ "" ∧
    sanitizeFilename eraName ≠ "" ∧ sanitizeFilename trackName ≠ "" := by
  refine ⟨?_, ?_, ?_⟩ <;>
  · simp only [sanitizeFilename]
    split
    · decide
    · assumption

/-! ### Download-manager concurrency (C2) -/

theorem dmstep_preserves_inv {α : Type} [DecidableEq α] {s t : DMState α}
    (h : DMStep s t) (hs : DMInv s) : DMInv t := by
  obtain ⟨hlen, hcap⟩ := hs
  unfold DMInv at *
  cases h with
  | enqueue items => exact ⟨hlen, hcap⟩
  | dispatch it q' hlt hq =>
    refine ⟨?_, ?_⟩ <;> dsimp only
    · simp only [List.length_cons]
      omega
    · omega
  | finishTerminal it hmem =>
    refine ⟨?_, ?_⟩ <;> dsimp only
    · rw [List.length_erase_of_mem hmem]
      omega
    · omega
  | finishRetry it hmem =>
    refine ⟨?_, ?_⟩ <;> dsimp only
    · rw [List.length_erase_of_mem hmem]
      omega
    · omega

/-- C2: from the initial state (counter 0, nothing in flight), every state
reachable through enqueues, dispatches and download completions keeps the
shared active-downloads counter equal to the number of in-flight
`downloadSingleItem` calls (each dispatch is paired with exactly one decrement
at a terminal outcome or re-enqueue) and never above the cap
`CONCURRENT_DOWNLOADS = 3`, across any number of jobs feeding the one queue. -/
theorem c2_bounded_concurrency {α : Type} [DecidableEq α] (q0 : List α) (s : DMState α)
    (h : Relation.ReflTransGen DMStep ⟨0, q0, []⟩ s) :
    s.active = s.inflight.length ∧ s.active ≤ CONCURRENT_DOWNLOADS := by
  have hinv : DMInv s := by
    induction h with
    | refl => exact ⟨rfl, by simp [CONCURRENT_DOWNLOADS]⟩
    | tail hst step ih => exact dmstep_preserves_inv step ih
  exact hinv

/-- C2 witness: a concrete one-step trace (dispatch of the first queued item). -/
theorem c2_bounded_concurrency_witness :
    (DMState.mk 1 ["u2"] ["u1"]).active = (DMState.mk 1 ["u2"] ["u1"]).inflight.length ∧
    (DMState.mk 1 ["u2"] ["u1"]).active ≤ CONCURRENT_DOWNLOADS :=
  c2_bounded_concurrency (α := String) ["u1", "u2"] (DMState.mk 1 ["u2"] ["u1"])
    (Relation.ReflTransGen.single
      (DMStep.dispatch (DMState.mk 0 ["u1", "u2"] []) "u1" ["u2"] (by decide) rfl))

/-! ### Batch resolver (C3, C5) -/

theorem runWaves_calls (r : String → Option String) (bs : List (List String))
    (m : List (String × Option String)) :
    (runWaves r bs m).1 = bs.flatten := by
  induction bs generalizing m with
  | nil => rfl
  | cons b rest ih => simp [runWaves, ih]

theorem toBatches_flatten {α : Type} (l : List α) : (toBatches l).flatten = l := by
  induction l using toBatches.induct with
  | case1 => rfl
  | case2 a0 a1 a2 a3 a4 a5 a6 a7 a8 a9 rest ih =>
    simp [toBatches, ih]
  | case3 l h1 h2 =>
    simp [toBatches]

theorem toBatches_length {α : Type} (l : List α) :
    (toBatches l).length = (l.length + 9) / 10 := by
  induction l using toBatches.induct with
  | case1 => simp [toBatches]
  | case2 a0 a1 a2 a3 a4 a5 a6 a7 a8 a9 rest ih =>
    simp only [toBatches, List.length_cons, ih]
    omega
  | case3 l h1 h2 =>
    rcases l with _ | ⟨a0, l⟩
    · exact absurd rfl h1
    rcases l with _ | ⟨a1, l⟩
    · simp [toBatches]
    rcases l with _ | ⟨a2, l⟩
    · simp [toBatches]
    rcases l with _ | ⟨a3, l⟩
    · simp [toBatches]
    rcases l with _ | ⟨a4, l⟩
    · simp [toBatches]
    rcases l with _ | ⟨a5, l⟩
    · simp [toBatches]
    rcases l with _ | ⟨a6, l⟩
    · simp [toBatches]
    rcases l with _ | ⟨a7, l⟩
    · simp [toBatches]
    rcases l with _ | ⟨a8, l⟩
    · simp [toBatches]
    rcases l with _ | ⟨a9, l⟩
    · simp [toBatches]
    exact ((h2 a0 a1 a2 a3 a4 a5 a6 a7 a8 a9 l) rfl).elim

theorem runWaves_resolved (r : String → Option String) (bs : List (List String))
    (m : List (String × Option String)) :
    (runWaves r bs m).2 = (bs.flatten.map (fun u => (u, r u))).foldl insertPair m := by
  induction bs generalizing m with
  | nil => rfl
  | cons b rest ih =>
    simp [runWaves, ih, List.map_append, List.foldl_append]

theorem insertResolved_keys_nodup (m : List (String × Option String)) (u : String)
    (v : Option String) (h : (m.map Prod.fst).Nodup) :
    ((insertResolved m u v).map Prod.fst).Nodup := by
  unfold insertResolved
  split
  · have hkeys : (m.map (fun p => if p.1 = u then (u, v) else p)).map Prod.fst
        = m.map Prod.fst := by
      rw [List.map_map]
      apply List.map_congr_left
      intro p _
      by_cases hpu : p.1 = u <;> simp [hpu]
    rw [hkeys]
    exact h
  · rename_i hany
    have hu : u ∉ m.map Prod.fst := by
      intro hmem
      rcases List.mem_map.mp hmem with ⟨p, hp, hfst⟩
      exact hany (List.any_eq_true.mpr ⟨p, hp, by simp [hfst]⟩)
    simp only [List.map_append, List.map_cons, List.map_nil]
    rw [List.nodup_append]
    refine ⟨h, List.nodup_singleton u, ?_⟩
    intro a ha hau
    rw [List.mem_singleton] at hau
    exact hu (hau ▸ ha)

theorem foldl_insertPair_keys_nodup (l : List (String × Option String))
    (m : List (String × Option String)) (h : (m.map Prod.fst).Nodup) :
    ((l.foldl insertPair m).map Prod.fst).Nodup := by
  induction l generalizing m with
  | nil => exact h
  | cons p l' ih =>
    exact ih (insertResolved m p.1 p.2) (insertResolved_keys_nodup m p.1 p.2 h)

theorem foldl_insertPair_fresh (l : List (String × Option String))
    (m : List (String × Option String))
    (hdisj : ∀ p ∈ l, p.1 ∉ m.map Prod.fst) (hnd : (l.map Prod.fst).Nodup) :
    l.foldl insertPair m = m ++ l := by
  induction l generalizing m with
  | nil => simp
  | cons p l' ih =>
    have hp : p.1 ∉ m.map Prod.fst := hdisj p (List.mem_cons_self p l')
    have hstep : insertPair m p = m ++ [p] := by
      unfold insertPair insertResolved
      rw [if_neg ?hne]
      case hne =>
        intro hany
        rcases List.any_eq_true.mp hany with ⟨q, hq, hq1⟩
        exact hp (List.mem_map.mpr ⟨q, hq, by simpa using hq1⟩)
    simp only [List.foldl_cons, hstep]
    rw [ih (m ++ [p]) ?hdisj2 ?hnd2]
    · simp
    case hdisj2 =>
      have hnd' : p.1 ∉ l'.map Prod.fst ∧ (l'.map Prod.fst).Nodup := by
        rw [List.map_cons, List.nodup_cons] at hnd
        exact hnd
      intro q hq
      simp only [List.map_append, List.mem_append, List.map_cons, List.map_nil,
        List.mem_singleton, not_or]
      refine ⟨fun hqm => hdisj q (List.mem_cons_of_mem p hq) hqm, ?_⟩
      intro hqp
      exact hnd'.1 (hqp ▸ List.mem_map_of_mem Prod.fst hq)
    case hnd2 =>
      rw [List.map_cons, List.nodup_cons] at hnd
      exact hnd.2

theorem preloadResolve_calls (r : String → Option String) (urls : List String) :
    (preloadResolve r urls).1 = urls := by
  unfold preloadResolve
  rw [runWaves_calls, toBatches_flatten]

/-- C3, counterexample: a tracker whose one era holds two tracks with the same
raw URL makes `preloadAllUrls` pass that URL to `resolvePlayableUrl` twice in
the resolution pass (the collected URL list is not deduplicated), refuting
"exactly once per resolution pass". -/
theorem c3_no_dedup_counterexample :
    (preloadResolve (fun _ => none)
      (collectUrls [⟨some [("CD Quality",
        [⟨some "https://a.b/x", none, none⟩,
         ⟨some "https://a.b/x", none, none⟩])]⟩])).1.count "https://a.b/x" = 2 := by
  decide

/-- C3 (amended): `preloadAllUrls` does not deduplicate raw URLs — a raw URL
appearing in k tracks is passed to `resolvePlayableUrl` exactly k times per
resolution pass (once per occurrence); the `resolved` record nevertheless ends
up with at most one entry per distinct raw URL. -/
theorem c3_calls_per_occurrence (r : String → Option String) (urls : List String)
    (u : String) :
    (preloadResolve r urls).1.count u = urls.count u ∧
    ((preloadResolve r urls).2.map Prod.fst).Nodup := by
  constructor
  · rw [preloadResolve_calls]
  · unfold preloadResolve
    rw [runWaves_resolved]
    exact foldl_insertPair_keys_nodup _ [] (by simp)

/-- C5: for a list of N distinct raw URLs, the wave loop of `preloadAllUrls`
performs exactly `⌈N/10⌉` sequential batch waves, and the final `resolved`
record has exactly N entries, the entry for each URL `u` holding exactly
`resolvePlayableUrl`'s answer `r u` (a string or null). -/
theorem c5_batch_waves (r : String → Option String) (urls : List String)
    (hnd : urls.Nodup) :
    (toBatches urls).length = (urls.length + 9) / 10 ∧
    (preloadResolve r urls).2 = urls.map (fun u => (u, r u)) ∧
    (preloadResolve r urls).2.length = urls.length := by
  have hmap : (preloadResolve r urls).2 = urls.map (fun u => (u, r u)) := by
    unfold preloadResolve
    rw [runWaves_resolved, toBatches_flatten]
    rw [foldl_insertPair_fresh _ [] (by simp) ?hk]
    · simp
    case hk =>
      rw [List.map_map]
      have hcomp : (Prod.fst ∘ fun u : String => (u, r u)) = id := rfl
      rw [hcomp, List.map_id]
      exact hnd
  exact ⟨toBatches_length urls, hmap, by rw [hmap]; simp⟩

/-- C5 witness: eleven distinct URLs resolve in `⌈11/10⌉ = 2` waves into an
11-entry record. -/
theorem c5_batch_waves_witness :
    (["a", "b", "c", "d", "e", "f", "g", "h", "i", "j", "k"] : List String).Nodup ∧
    (toBatches ["a", "b", "c", "d", "e", "f", "g", "h", "i", "j", "k"]).length
      = ((["a", "b", "c", "d", "e", "f", "g", "h", "i", "j", "k"] : List String).length + 9) / 10 ∧
    (preloadResolve (fun _ => none) ["a", "b", "c", "d", "e", "f", "g", "h", "i", "j", "k"]).2
      = (["a", "b", "c", "d", "e", "f", "g", "h", "i", "j", "k"]).map (fun u => (u, (fun _ => none) u)) :=
  ⟨by decide,
   (c5_batch_waves (fun _ => none) _ (by decide)).1,
   (c5_batch_waves (fun _ => none) _ (by decide)).2.1⟩

/-! ### ZIP assembly (C7) -/

theorem completedBlobSize_cons (it : ZEntry) (rest : List ZEntry) :
    completedBlobSize (it :: rest) = entrySize it + completedBlobSize rest := by
  simp [completedBlobSize]

theorem addZipEntries_error_of_oversize (items : List ZEntry) (total : Nat)
    (hle : total ≤ MAX_ZIP_SIZE)
    (hover : total + completedBlobSize items > MAX_ZIP_SIZE) :
    addZipEntries items total = Except.error () := by
  induction items generalizing total with
  | nil =>
    exfalso
    simp [completedBlobSize] at hover
    omega
  | cons it rest ih =>
    rw [completedBlobSize_cons] at hover
    rcases it with ⟨st, bl⟩
    by_cases hc : st = ItemStatus.completed
    · subst hc
      rcases bl with _ | sz
      · simp only [addZipEntries, if_pos rfl]
        apply ih total hle
        simpa [entrySize] using hover
      · simp only [addZipEntries, if_pos rfl]
        by_cases htrip : total + sz > MAX_ZIP_SIZE
        · simp [htrip]
        · rw [if_neg htrip]
          apply ih (total + sz) (by omega)
          have : entrySize ⟨ItemStatus.completed, some sz⟩ = sz := rfl
          omega
    · have hne : (⟨st, bl⟩ : ZEntry).status ≠ ItemStatus.completed := hc
      simp only [addZipEntries, if_neg hne]
      apply ih total hle
      have h0 : entrySize ⟨st, bl⟩ = 0 := by
        cases st <;> rcases bl with _ | sz <;> simp_all [entrySize]
      omega

theorem hasZipData_of_pos (items : List ZEntry) (h : 0 < completedBlobSize items) :
    hasZipData items = true := by
  induction items with
  | nil => simp [completedBlobSize] at h
  | cons it rest ih =>
    rw [completedBlobSize_cons] at h
    rcases it with ⟨st, bl⟩
    rcases bl with _ | sz
    · have h0 : entrySize ⟨st, none⟩ = 0 := by
        cases st <;> simp [entrySize]
      rw [h0] at h
      simp only [hasZipData, List.any_cons]
      rw [hasZipData] at ih
      simp [ih (by omega)]
    · simp [hasZipData]

theorem zipPass_eq_map_fold (genOk : Bool) (todo st : List Job) :
    todo.foldl (applyZipCheck genOk) st
      = st.map (fun j => todo.foldl (fun x t => updById genOk t x) j) := by
  induction todo generalizing st with
  | nil => simp
  | cons t ts ih =>
    simp only [List.foldl_cons, applyZipCheck, ih, List.map_map]
    rfl

theorem fold_updById (genOk : Bool) (todo : List Job) (j : Job)
    (huniq : ∀ t ∈ todo, t.id = j.id → t = j) :
    ∀ x : Job, x.id = j.id →
      todo.foldl (fun y t => updById genOk t y) x =
        if todo.any (fun t => t.id = j.id) then
          { x with status := checkJobZip genOk j.status j.items }
        else x := by
  induction todo with
  | nil =>
    intro x hx
    simp
  | cons t ts ih =>
    intro x hx
    have huniq' : ∀ u ∈ ts, u.id = j.id → u = j :=
      fun u hu => huniq u (List.mem_cons_of_mem t hu)
    by_cases htj : t.id = j.id
    · have ht : t = j := huniq t (List.mem_cons_self t ts) htj
      subst ht
      rw [List.foldl_cons]
      have hhead : updById genOk t x
          = { x with status := checkJobZip genOk t.status t.items } := by
        unfold updById
        rw [if_pos hx]
      rw [hhead, ih huniq' { x with status := checkJobZip genOk t.status t.items } hx]
      have hany : ((t :: ts).any (fun u => u.id = t.id)) = true := by simp
      rw [if_pos hany]
      by_cases h2 : (ts.any (fun u => u.id = t.id)) = true
      · rw [if_pos h2]
      · rw [if_neg h2]
    · rw [List.foldl_cons]
      have hhead : updById genOk t x = x := by
        unfold updById
        rw [if_neg]
        intro h
        apply htj
        rw [← h]
        exact hx
      rw [hhead, ih huniq' x hx]
      have hstep : ((t :: ts).any (fun u => u.id = j.id)) = (ts.any (fun u => u.id = j.id)) := by
        simp [htj]
      rw [hstep]

/-- C7: after a full `checkAndCreateZips` pass over jobs with distinct ids,
every job's new status is a function of that job's own snapshot (sibling jobs
are unaffected by one another), and any active job whose items are all
terminal but whose completed blobs total more than `MAX_ZIP_SIZE` (500MB) is
marked `failed` — even when every one of its items completed successfully. -/
theorem c7_zip_size_cap (genOk : Bool) (jobs : List Job)
    (hids : (jobs.map Job.id).Nodup) :
    zipPass genOk jobs
        = jobs.map (fun j => { j with status := checkJobZip genOk j.status j.items }) ∧
    ∀ j ∈ jobs, j.status = JobStatus.active → allTerminal j.items = true →
      completedBlobSize j.items > MAX_ZIP_SIZE →
      checkJobZip genOk j.status j.items = JobStatus.failed := by
  constructor
  · unfold zipPass
    rw [zipPass_eq_map_fold]
    apply List.map_congr_left
    intro j hj
    have huniq : ∀ t ∈ jobs, t.id = j.id → t = j := by
      intro t ht hid
      exact List.inj_on_of_nodup_map hids ht hj hid
    rw [fold_updById genOk jobs j huniq j rfl]
    rw [if_pos (List.any_eq_true.mpr ⟨j, hj, by simp⟩)]
  · intro j hj hact hterm hover
    unfold checkJobZip
    rw [if_pos ⟨hact, hterm⟩]
    rw [if_pos (hasZipData_of_pos _ (by omega))]
    rw [addZipEntries_error_of_oversize _ 0 (Nat.zero_le _) (by simpa using hover)]

/-- C7 witness: two sibling jobs with distinct ids, the first of which has
600MB of completed blobs. -/
theorem c7_zip_size_cap_witness :
    ((sampleJobs.map Job.id).Nodup) ∧
    (zipPass true sampleJobs
        = sampleJobs.map (fun j => { j with status := checkJobZip true j.status j.items }) ∧
     ∀ j ∈ sampleJobs, j.status = JobStatus.active → allTerminal j.items = true →
       completedBlobSize j.items > MAX_ZIP_SIZE →
       checkJobZip true j.status j.items = JobStatus.failed) :=
  ⟨by decide, c7_zip_size_cap true sampleJobs (by decide)⟩

/-! ### URL resolver error handling (C6) -/

/-- C6: for every collaborator behaviour, round-robin position and input URL,
`resolvePlayableUrl` returns a value (never propagates a throw), and whenever
its body would have thrown — a transport error, a non-2xx response's
`res.json()` failure, a manifest decode failure, in any provider branch —
the caught result is the value null. Pattern mismatches and non-2xx responses
already return null inside the body. -/
theorem c6_resolve_never_throws (env : NetEnv) (idx : Nat) (url : String) :
    (∃ v : Option String, resolvePlayableUrl env idx url = Except.ok v) ∧
    (∀ e : NetErr, resolveBody env idx url = Except.error e →
      resolvePlayableUrl env idx url = Except.ok none) := by
  constructor
  · cases h : resolveBody env idx url with
    | ok v => exact ⟨v, by simp [resolvePlayableUrl, h]⟩
    | error e => exact ⟨none, by simp [resolvePlayableUrl, h]⟩
  · intro e he
    simp [resolvePlayableUrl, he]

/-- C6 witness: with every collaborator throwing, a krakenfiles URL makes the
body throw, and the caught result is null. -/
theorem c6_resolve_never_throws_witness :
    resolveBody throwingEnv 0 "https://krakenfiles.com/view/abc123" = Except.error NetErr.err ∧
    resolvePlayableUrl throwingEnv 0 "https://krakenfiles.com/view/abc123" = Except.ok none :=
  ⟨rfl,
   (c6_resolve_never_throws throwingEnv 0 "https://krakenfiles.com/view/abc123").2
     NetErr.err rfl⟩

/-! ### Share-token codec (C9) -/

theorem b64Index_b64Char : ∀ i, i < 64 → b64Index (b64Char i) = some i := by decide

theorem b64Char_ne_pad : ∀ i, i < 64 → b64Char i ≠ '=' := by decide

theorem fwd_ne_pad : ∀ i, i < 64 → fwdSafe (b64Char i) ≠ '=' := by decide

theorem bwd_fwd_char : ∀ i, i < 64 → bwdSafe (fwdSafe (b64Char i)) = b64Char i := by decide

theorem decodeB64_encodeBytes :
    ∀ bs : List Nat, (∀ x ∈ bs, x < 256) → decodeB64 (encodeBytes bs) = some bs := by
  intro bs
  induction bs using encodeBytes.induct with
  | case1 =>
    intro _
    rfl
  | case2 a =>
    intro h
    have ha : a < 256 := h a (by simp)
    have h1 : a / 4 < 64 := by omega
    have h2 : a % 4 * 16 < 64 := by omega
    simp only [encodeBytes, decodeB64, b64Index_b64Char _ h1, b64Index_b64Char _ h2]
    simp
    omega
  | case3 a b =>
    intro h
    have ha : a < 256 := h a (by simp)
    have hb : b < 256 := h b (by simp)
    have h1 : a / 4 < 64 := by omega
    have h2 : a % 4 * 16 + b / 16 < 64 := by omega
    have h3 : b % 16 * 4 < 64 := by omega
    simp only [encodeBytes, decodeB64, b64Index_b64Char _ h1, b64Index_b64Char _ h2,
      b64Index_b64Char _ h3]
    simp [b64Char_ne_pad _ h3]
    omega
  | case4 a b c rest ih =>
    intro h
    have ha : a < 256 := h a (by simp)
    have hb : b < 256 := h b (by simp)
    have hc : c < 256 := h c (by simp)
    have h1 : a / 4 < 64 := by omega
    have h2 : a % 4 * 16 + b / 16 < 64 := by omega
    have h3 : b % 16 * 4 + c / 64 < 64 := by omega
    have h4 : c % 64 < 64 := by omega
    have ihh := ih (fun x hx => h x (by simp [hx]))
    simp only [encodeBytes, decodeB64, b64Index_b64Char _ h1, b64Index_b64Char _ h2,
      b64Index_b64Char _ h3, b64Index_b64Char _ h4]
    simp [b64Char_ne_pad _ h3, b64Char_ne_pad _ h4, ihh]
    omega

theorem dropWhile_append_split {α : Type} (p : α → Bool) (u v : List α) :
    (u ++ v).dropWhile p =
      if (u.dropWhile p).isEmpty then v.dropWhile p else u.dropWhile p ++ v := by
  induction u with
  | nil => simp
  | cons a u' ih =>
    by_cases hpa : p a = true
    · simp [List.dropWhile_cons, hpa, ih]
    · simp [List.dropWhile_cons, hpa]

theorem dropWhile_of_none {α : Type} (p : α → Bool) (l : List α)
    (h : ∀ c ∈ l, p c = false) : l.dropWhile p = l := by
  cases l with
  | nil => rfl
  | cons a l' => simp [List.dropWhile_cons, h a (by simp)]

theorem stripEq_append (A X : List Char) (hA : ∀ c ∈ A, c ≠ '=') :
    stripTrailingEq (A ++ X) = A ++ stripTrailingEq X := by
  unfold stripTrailingEq
  rw [List.reverse_append, dropWhile_append_split]
  by_cases hX : ((X.reverse.dropWhile (fun c => c = '=')).isEmpty) = true
  · rw [if_pos hX]
    have hXnil : X.reverse.dropWhile (fun c => c = '=') = [] := by
      rwa [List.isEmpty_iff] at hX
    rw [dropWhile_of_none _ _ ?hnone, List.reverse_reverse, hXnil]
    · simp
    case hnone =>
      intro c hc
      have hcA : c ∈ A := List.mem_reverse.mp hc
      exact decide_eq_false (hA c hcA)
  · rw [if_neg hX]
    rw [List.reverse_append, List.reverse_reverse]

theorem stripEq_two (y1 y2 : Char) (h2 : y2 ≠ '=') :
    stripTrailingEq [y1, y2, '=', '='] = [y1, y2] := by
  simp [stripTrailingEq, List.dropWhile_cons, h2]

theorem stripEq_three (y1 y2 y3 : Char) (h3 : y3 ≠ '=') :
    stripTrailingEq [y1, y2, y3, '='] = [y1, y2, y3] := by
  simp [stripTrailingEq, List.dropWhile_cons, h3]

theorem repad_token :
    ∀ bs : List Nat, (∀ x ∈ bs, x < 256) →
      ((stripTrailingEq ((encodeBytes bs).map fwdSafe)).map bwdSafe)
        ++ List.replicate
            ((4 - (stripTrailingEq ((encodeBytes bs).map fwdSafe)).length % 4) % 4) '='
        = encodeBytes bs := by
  intro bs
  induction bs using encodeBytes.induct with
  | case1 =>
    intro _
    rfl
  | case2 a =>
    intro h
    have ha : a < 256 := h a (by simp)
    have h1 : a / 4 < 64 := by omega
    have h2 : a % 4 * 16 < 64 := by omega
    have hpad : fwdSafe '=' = '=' := rfl
    simp only [encodeBytes, List.map_cons, List.map_nil, hpad]
    rw [stripEq_two _ _ (fwd_ne_pad _ h2)]
    simp [bwd_fwd_char _ h1, bwd_fwd_char _ h2, List.replicate]
  | case3 a b =>
    intro h
    have ha : a < 256 := h a (by simp)
    have hb : b < 256 := h b (by simp)
    have h1 : a / 4 < 64 := by omega
    have h2 : a % 4 * 16 + b / 16 < 64 := by omega
    have h3 : b % 16 * 4 < 64 := by omega
    have hpad : fwdSafe '=' = '=' := rfl
    simp only [encodeBytes, List.map_cons, List.map_nil, hpad]
    rw [stripEq_three _ _ _ (fwd_ne_pad _ h3)]
    simp [bwd_fwd_char _ h1, bwd_fwd_char _ h2, bwd_fwd_char _ h3, List.replicate]
  | case4 a b c rest ih =>
    intro h
    have ha : a < 256 := h a (by simp)
    have hb : b < 256 := h b (by simp)
    have hc : c < 256 := h c (by simp)
    have h1 : a / 4 < 64 := by omega
    have h2 : a % 4 * 16 + b / 16 < 64 := by omega
    have h3 : b % 16 * 4 + c / 64 < 64 := by omega
    have h4 : c % 64 < 64 := by omega
    have ihh := ih (fun x hx => h x (by simp [hx]))
    simp only [encodeBytes, List.map_cons]
    rw [show (fwdSafe (b64Char (a / 4)) :: fwdSafe (b64Char (a % 4 * 16 + b / 16))
          :: fwdSafe (b64Char (b % 16 * 4 + c / 64)) :: fwdSafe (b64Char (c % 64))
          :: (encodeBytes rest).map fwdSafe : List Char)
        = [fwdSafe (b64Char (a / 4)), fwdSafe (b64Char (a % 4 * 16 + b / 16)),
           fwdSafe (b64Char (b % 16 * 4 + c / 64)), fwdSafe (b64Char (c % 64))]
          ++ (encodeBytes rest).map fwdSafe from rfl]
    rw [stripEq_append _ _ ?hA]
    case hA =>
      intro ch hch
      simp only [List.mem_cons, List.not_mem_nil, or_false] at hch
      rcases hch with rfl | rfl | rfl | rfl
      · exact fwd_ne_pad _ h1
      · exact fwd_ne_pad _ h2
      · exact fwd_ne_pad _ h3
      · exact fwd_ne_pad _ h4
    rw [List.map_append, List.length_append]
    have hmod : (4 - ([fwdSafe (b64Char (a / 4)), fwdSafe (b64Char (a % 4 * 16 + b / 16)),
           fwdSafe (b64Char (b % 16 * 4 + c / 64)), fwdSafe (b64Char (c % 64))].length
          + (stripTrailingEq ((encodeBytes rest).map fwdSafe)).length) % 4) % 4
        = (4 - (stripTrailingEq ((encodeBytes rest).map fwdSafe)).length % 4) % 4 := by
      simp only [List.length_cons, List.length_nil]
      omega
    rw [hmod, List.append_assoc, ihh]
    simp [bwd_fwd_char _ h1, bwd_fwd_char _ h2, bwd_fwd_char _ h3, bwd_fwd_char _ h4]

/-- C9: for every URL made of printable ASCII characters, decoding the
URL-safe share token produced by `encodeTrackForUrl` (base64 with `+`→`-`,
`/`→`_`, trailing padding stripped) returns exactly the original URL. -/
theorem c9_share_token_roundtrip (url : String)
    (h : ∀ c ∈ url.data, 32 ≤ c.toNat ∧ c.toNat ≤ 126) :
    decodeTrackFromUrl (encodeTrackForUrl url) = some url := by
  have e1 : ∀ E : List Char, (E.map plusToDash).map slashToUnder = E.map fwdSafe := by
    intro E
    rw [List.map_map]
    apply List.map_congr_left
    intro c _
    rfl
  have e2 : ∀ E : List Char, (E.map dashToPlus).map underToSlash = E.map bwdSafe := by
    intro E
    rw [List.map_map]
    apply List.map_congr_left
    intro c _
    rfl
  have hb : ∀ x ∈ url.data.map Char.toNat, x < 256 := by
    intro x hx
    rcases List.mem_map.mp hx with ⟨c, hc, rfl⟩
    have hc2 := h c hc
    have : c.toNat ≤ 126 := hc2.2
    omega
  unfold encodeTrackForUrl decodeTrackFromUrl
  simp only [e1, e2]
  rw [List.length_map]
  rw [repad_token (url.data.map Char.toNat) hb,
    decodeB64_encodeBytes (url.data.map Char.toNat) hb]
  simp only [List.map_map]
  have hmap : url.data.map (Char.ofNat ∘ Char.toNat) = url.data.map id :=
    List.map_congr_left (fun c _ => Char.ofNat_toNat c)
  rw [hmap, List.map_id]

/-- C9 witness: a concrete printable-ASCII URL round-trips. -/
theorem c9_share_token_roundtrip_witness :
    (∀ c ∈ ("https://a.b/c?d=1 e").data, 32 ≤ c.toNat ∧ c.toNat ≤ 126) ∧
    decodeTrackFromUrl (encodeTrackForUrl "https://a.b/c?d=1 e") = some "https://a.b/c?d=1 e" :=
  ⟨by decide, c9_share_token_roundtrip "https://a.b/c?d=1 e" (by decide)⟩

end ArtistGrid
